import Mathlib

/-!
Verification of the FIA F1 docs bot against its specification.

The Go sources are shallowly embedded: Go strings (byte sequences) are
modelled as lists of characters (`Str`), which coincides with Go byte
semantics for the ASCII data this program handles; `time.Time` values are
modelled by natural numbers ordered as the instants are (`Before` is `<`);
database/network effects are modelled by explicit oracles and effect
traces; fallible operations return `Except`.
-/

set_option maxHeartbeats 1000000

set_option maxRecDepth 100000

namespace F1Bot

/-! ## Definitions: the shallow embedding of the program -/

/-- Go strings, modelled as character lists (bytes, ASCII regime). -/
abbrev Str := List Char

/-- Embed a Lean string literal as a `Str`. -/
def str (s : String) : Str := s.toList

/-- Model of `strings.ToLower` (ASCII regime). -/
def lowerStr (s : Str) : Str := s.map Char.toLower

/-- Model of `scraper.Document` (scraper.go): title, url, published time (UTC instant,
modelled as a natural number). -/
structure Document where
  title : Str
  url : Str
  published : Nat
deriving DecidableEq, Repr

/-- Model of `storage.ProcessedDocument`: the durable dedup record. -/
structure ProcessedDocument where
  title : Str
  url : Str
  timestamp : Nat
deriving DecidableEq, Repr

/-- The state of the `processed_documents` table: the list of inserted rows. -/
abbrev StoreState := List ProcessedDocument

/-- A database transport/query error. -/
inductive DbErr where
  | queryFailed
deriving DecidableEq, Repr

/-- The `SELECT EXISTS(SELECT 1 FROM processed_documents WHERE url = $1 AND
title = $2)` query (postgres.go, second revision). -/
def existsTitleUrl (s : StoreState) (title url : Str) : Bool :=
  s.any fun r => r.url == url && r.title == title

/-- Model of `PostgresStorage.AddProcessedDocument` (postgres.go lines 297-349).
`checkErr` / `insertErr` are oracles for a possible failure of the existence
query and of the insert.  The function first checks existence; on a query
error it propagates the error; if the key exists it returns success without
modifying anything; otherwise it inserts the row. -/
def addProcessedDocument (checkErr insertErr : Option DbErr) (s : StoreState)
    (d : ProcessedDocument) : StoreState × Except DbErr Unit :=
  match checkErr with
  | some e => (s, .error e)
  | none =>
    if existsTitleUrl s d.title d.url then
      (s, .ok ())
    else
      match insertErr with
      | some e => (s, .error e)
      | none => (s ++ [d], .ok ())

/-- Model of `PostgresStorage.IsDocumentProcessed` (postgres.go lines 352-381): on a
query error it returns `false` (fail-open); otherwise the existence result. -/
def isDocumentProcessed (queryErr : Option DbErr) (s : StoreState)
    (d : Document) : Bool :=
  match queryErr with
  | some _ => false
  | none => existsTitleUrl s d.title d.url

/-- Model of `strings.Contains(s, sub)`: `sub` occurs as a contiguous substring of
`s`. -/
def containsSub (s sub : Str) : Bool :=
  decide (sub <:+: s)

/-- Model of `Scraper.IsRecalledDocument`, on the title (scraper.go lines 286-291):
`strings.HasPrefix(strings.ToLower(title), "recalled") ||
 strings.Contains(strings.ToLower(title), "recalled -")`. -/
def isRecalledTitle (title : Str) : Bool :=
  (str "recalled").isPrefixOf (lowerStr title) ||
    containsSub (lowerStr title) (str "recalled -")

/-- Model of `Scraper.IsRecalledDocument` (scraper.go lines 286-291). -/
def isRecalledDocument (d : Document) : Bool :=
  isRecalledTitle d.title

/-- One execution of the inner loop of `sortDocumentsByDate` with `m`
iterations remaining (`for j := 0; j < m; j++`): compares adjacent
documents left to right and swaps when the current one was published
before (`time.Before`, strictly earlier than) the next one. -/
def bubblePass : Nat → List Document → List Document
  | 0, l => l
  | _ + 1, [] => []
  | _ + 1, [a] => [a]
  | m + 1, a :: b :: rest =>
    if a.published < b.published then b :: bubblePass m (a :: rest)
    else a :: bubblePass m (b :: rest)

/-- The outer loop of `sortDocumentsByDate`: with `k` iterations remaining
the inner loop runs `k` comparisons (`n-i-1` for outer index `i`). -/
def bubbleOuter : Nat → List Document → List Document
  | 0, l => l
  | k + 1, l => bubbleOuter k (bubblePass (k + 1) l)

/-- Model of `sortDocumentsByDate` (scraper.go lines 164-175): bubble sort, most
recent first. -/
def sortDocumentsByDate (l : List Document) : List Document :=
  bubbleOuter (l.length - 1) l

/-- The sort-and-truncate tail of `FetchLatestDocuments` (scraper.go lines
150-157): sort by date descending, then truncate to `limit` when the list
is longer than `limit`. -/
def listRecent (scraped : List Document) (limit : Nat) : List Document :=
  let sorted := sortDocumentsByDate scraped
  if sorted.length > limit then sorted.take limit else sorted

/-- Errors of `FetchLatestDocuments`. -/
inductive FetchErr where
  | visitFailed
  | noDocuments
deriving DecidableEq, Repr

/-- Model of `FetchLatestDocuments` (scraper.go lines 54-161).  `visitOk` is the
outcome of the page visit and `scraped` the documents collected from the
active Grand Prix section; with zero documents the function errors, and
otherwise returns the sorted, truncated list. -/
def fetchLatestDocuments (visitOk : Bool) (scraped : List Document)
    (limit : Nat) : Except FetchErr (List Document) :=
  if !visitOk then .error .visitFailed
  else if scraped.length = 0 then .error .noDocuments
  else .ok (listRecent scraped limit)

instance : Inhabited Document := ⟨⟨[], [], 0⟩⟩

/-- Model of `FetchLatestDocument` (scraper.go lines 177-189): fetches with limit 1
and takes the first element of the result unconditionally (`docs[0]`,
modelled by `head!`). -/
def fetchLatestDocument (visitOk : Bool) (scraped : List Document) :
    Except FetchErr Document :=
  match fetchLatestDocuments visitOk scraped 1 with
  | .error e => .error e
  | .ok docs => .ok docs.head!

/-- Claim C10 as stated: every non-error return of FetchLatestDocuments is a
non-empty list. -/
def claimC10 : Prop :=
  ∀ (visitOk : Bool) (scraped : List Document) (limit : Nat)
    (docs : List Document),
    fetchLatestDocuments visitOk scraped limit = .ok docs → docs ≠ []

/-- Sorted by published time, most recent first. -/
abbrev SortedDesc (l : List Document) : Prop :=
  List.Pairwise (fun a b => b.published ≤ a.published) l

/-- A stable descending sort of `l` by published time, the reference
contract named by the spec: a permutation of `l`, sorted most-recent-first,
in which documents sharing a published time keep their relative order
from `l`. -/
def IsStableDescSortOf (l out : List Document) : Prop :=
  List.Perm l out ∧ SortedDesc out ∧
  ∀ k ∈ l.map Document.published,
    out.filter (fun d => d.published == k) = l.filter (fun d => d.published == k)

/-- Model of `maxCharacterLimit` (poster.go). -/
def maxCharacterLimit : Nat := 500

/-- The `ellipsis` constant (poster.go). -/
def ellipsisStr : Str := str "..."

/-- Model of `strings.LastIndex(s, " ")`: the index of the last space of `s`, if
any. -/
def lastIndexSpace : Str → Option Nat
  | [] => none
  | c :: rest =>
    match lastIndexSpace rest with
    | some i => some (i + 1)
    | none => if c = ' ' then some 0 else none

/-- Model of `truncateText` (poster.go lines 598-617).  Go `int` arithmetic on the
limit is modelled with `Int`; `text[:n]` is `List.take n`. -/
def truncateText (text : Str) (limit : Int) : Str :=
  if (text.length : Int) ≤ limit then text
  else
    let limit2 : Int := limit - (ellipsisStr.length : Int)
    if limit2 ≤ 0 then []
    else
      match lastIndexSpace (text.take limit2.toNat) with
      | none => text.take limit2.toNat ++ ellipsisStr
      | some i => text.take i ++ ellipsisStr

/-- The `"\n\n#F1Threads"` suffix appended by `formatPostText`. -/
def suffixStr : Str := str "\n\n#F1Threads"

/-- The header built by `formatPostText` (poster.go lines 562-584).
`shortenResult` is the outcome of the URL-shortener call (`none` models a
shortener failure, after which the code continues with an empty shortened
URL); `timeStr` is the `publishTime.Format("02-01-2006 15:04 MST")`
rendering of the publish time. -/
def baseTextOf (shortenResult : Option Str)
    (title timeStr documentURL : Str) : Str :=
  let shortenedURL : Str :=
    if documentURL ≠ [] then
      match shortenResult with
      | some u => u
      | none => []
    else []
  if shortenedURL ≠ [] then
    str "New document: " ++ title ++ str "\nPublished on: " ++ timeStr ++
      str "\nLink: " ++ shortenedURL ++ str "\n\nAI Summary: "
  else
    str "New document: " ++ title ++ str "\nPublished on: " ++ timeStr ++
      str "\n\nAI Summary: "

/-- Model of `formatPostText` (poster.go lines 558-595): header, truncated AI
summary, hashtag suffix. -/
def formatPostText (shortenResult : Option Str)
    (title timeStr documentURL aiSummary : Str) : Str :=
  let baseText := baseTextOf shortenResult title timeStr documentURL
  let remainingChars : Int :=
    (maxCharacterLimit : Int) - (baseText.length : Int) - (suffixStr.length : Int)
  baseText ++ truncateText aiSummary remainingChars ++ suffixStr

/-- The truncation behaviour asserted by C2: the summary either fits, or
is empty because the budget is below the ellipsis length, or ends at a
word boundary (the next character of the original summary is a space)
followed by the ellipsis. -/
def TruncClaimHolds (text : Str) (limit : Int) : Prop :=
  truncateText text limit = text ∨
  (limit < (ellipsisStr.length : Int) ∧ truncateText text limit = []) ∨
  ∃ w : Str, truncateText text limit = w ++ ellipsisStr ∧
    (text.drop w.length).head? = some ' '

/-- Claim C2 as stated: for every title, publish time, document URL and summary
the post text fits in the 500-character platform limit, and the summary is
never cut mid-word. -/
def claimC2 : Prop :=
  ∀ (shortenResult : Option Str) (title timeStr documentURL aiSummary : Str),
    (formatPostText shortenResult title timeStr documentURL aiSummary).length
        ≤ maxCharacterLimit ∧
    TruncClaimHolds aiSummary
      ((maxCharacterLimit : Int)
        - ((baseTextOf shortenResult title timeStr documentURL).length : Int)
        - (suffixStr.length : Int))

/-- The precise truncation behaviour of the code: the summary fits; or the
post-ellipsis budget is non-positive and the summary portion is empty; or
a space exists in the truncated window and the cut is at the last space,
at a word boundary, followed by the ellipsis; or the window has no space
at all and the cut is exactly at the byte budget (mid-word), followed by
the ellipsis. -/
def TruncAmended (text : Str) (limit : Int) : Prop :=
  ((text.length : Int) ≤ limit ∧ truncateText text limit = text) ∨
  (limit - (ellipsisStr.length : Int) ≤ 0 ∧ limit < (text.length : Int) ∧
    truncateText text limit = []) ∨
  (∃ w : Str, truncateText text limit = w ++ ellipsisStr ∧
    (text.drop w.length).head? = some ' ') ∨
  (lastIndexSpace (text.take (limit - (ellipsisStr.length : Int)).toNat) = none ∧
    truncateText text limit
      = text.take (limit - (ellipsisStr.length : Int)).toNat ++ ellipsisStr)

/-- Threads API calls issued by the carousel flow.  `checkStatus` is the
container status poll described by the specification; it is included in
the event alphabet so that its absence from every trace is expressible. -/
inductive ApiEvent where
  | createItem (url : Str)
  | createCarousel (children : List Str)
  | publishCar (id : Str)
  | checkStatus (id : Str)
deriving DecidableEq, Repr

/-- A Threads API failure. -/
inductive ApiErr where
  | requestFailed
deriving DecidableEq, Repr

/-- The item-container creation loop of `postCarousel` (poster.go lines
523-539): one `createItemContainer` call per image URL, aborting on the
first failure.  `itemRes` is the API oracle giving each call's outcome.
Returns the collected container ids and the trace of calls made. -/
def postCarouselLoop (itemRes : Str → Except ApiErr Str) :
    List Str → Except ApiErr (List Str) × List ApiEvent
  | [] => (.ok [], [])
  | u :: rest =>
    match itemRes u with
    | .error e => (.error e, [.createItem u])
    | .ok id =>
      match postCarouselLoop itemRes rest with
      | (.error e, tr) => (.error e, .createItem u :: tr)
      | (.ok ids, tr) => (.ok (id :: ids), .createItem u :: tr)

/-- Model of `postCarousel` (poster.go lines 518-555): create an item container per
image (fixed 500ms delay between creations), create the carousel container
from all item ids, wait a fixed 3s delay, publish.  `caroRes` and `pubRes`
are the API oracles for the carousel-container creation and the publish
call. -/
def postCarousel (itemRes : Str → Except ApiErr Str)
    (caroRes : List Str → Except ApiErr Str)
    (pubRes : Str → Except ApiErr Unit)
    (imageURLs : List Str) : Except ApiErr Unit × List ApiEvent :=
  match postCarouselLoop itemRes imageURLs with
  | (.error e, tr) => (.error e, tr)
  | (.ok itemIDs, tr) =>
    match caroRes itemIDs with
    | .error e => (.error e, tr ++ [.createCarousel itemIDs])
    | .ok caroId =>
      match pubRes caroId with
      | .error e => (.error e, tr ++ [.createCarousel itemIDs, .publishCar caroId])
      | .ok _ => (.ok (), tr ++ [.createCarousel itemIDs, .publishCar caroId])

/-- Claim C4 as stated: in every carousel run (two to twenty images), before the
carousel container is assembled each item container has been confirmed by
a status poll — every id referenced by the carousel-creation call has a
`checkStatus` event earlier in the trace. -/
def claimC4 : Prop :=
  ∀ (itemRes : Str → Except ApiErr Str) (caroRes : List Str → Except ApiErr Str)
    (pubRes : Str → Except ApiErr Unit) (imageURLs : List Str),
    2 ≤ imageURLs.length → imageURLs.length ≤ 20 →
    ∀ pre ids post,
      (postCarousel itemRes caroRes pubRes imageURLs).2
        = pre ++ ApiEvent.createCarousel ids :: post →
      ∀ id ∈ ids, ApiEvent.checkStatus id ∈ pre

/-- Observable effects of `DownloadDocument`. -/
inductive Effect where
  | httpRequest
  | fileWrite
  | fileRemove
deriving DecidableEq, Repr

/-- Errors of `DownloadDocument`. -/
inductive DlErr where
  | recalled
  | transport
  | badStatus
  | invalidPdf
deriving DecidableEq, Repr

/-- An HTTP response: status code and body bytes. -/
structure HttpResponse where
  status : Nat
  body : Str
deriving DecidableEq, Repr

/-- The `%PDF-` magic bytes checked by `verifyPDF`. -/
def pdfSignature : Str := str "%PDF-"

/-- Model of `verifyPDF` (scraper.go lines 294-330) on the written bytes: the first
five bytes must be the PDF signature and the file must be at least 1000
bytes.  A file shorter than five bytes fails the signature comparison
(Go compares a partially filled five-byte buffer), so both of Go's
failure modes (error return and failed check) map to `false` here. -/
def verifyPDF (content : Str) : Bool :=
  content.take 5 == pdfSignature && !(decide (content.length < 1000))

/-- Model of `sanitizeFilename` (scraper.go lines 333-339): path-unsafe characters
replaced by underscores.  All replaced patterns are single characters, so
the sequence of `strings.ReplaceAll` calls is a character map; the final
`filepath.Clean` normalization is not modelled (it does not affect the
claims under verification, which do not inspect the path). -/
def sanitizeFilename (name : Str) : Str :=
  name.map fun c =>
    if c = '/' ∨ c = '\\' ∨ c = ':' ∨ c = '*' ∨ c = '?' ∨ c = '"' ∨
        c = '<' ∨ c = '>' ∨ c = '|' then '_' else c

/-- Model of `DownloadDocument` (scraper.go lines 192-284).  `resp` is the oracle
for the HTTP request (`.error` models a transport failure).  Returns the
call result, the content left on disk at the destination path (`none` if
no file remains), and the trace of effects in order.  The operating-system
file create/copy/remove calls are assumed to succeed. -/
def downloadDocument (d : Document) (resp : Except Unit HttpResponse)
    (dir : Str) : Except DlErr Str × Option Str × List Effect :=
  if isRecalledDocument d then (.error .recalled, none, [])
  else
    match resp with
    | .error _ => (.error .transport, none, [.httpRequest])
    | .ok r =>
      if r.status ≠ 200 then (.error .badStatus, none, [.httpRequest])
      else
        let path := dir ++ str "/" ++ sanitizeFilename d.title ++ str ".pdf"
        if verifyPDF r.body then
          (.ok path, some r.body, [.httpRequest, .fileWrite])
        else
          (.error .invalidPdf, none, [.httpRequest, .fileWrite, .fileRemove])

/-- The dedup record written for a document (title, url, published time). -/
def toProcessedRecord (d : Document) : ProcessedDocument :=
  ⟨d.title, d.url, d.published⟩

/-- Events of one orchestrator step for one document. -/
inductive OrchEvent where
  | publishedNotice (ok : Bool)
  | markedProcessed
  | dispatchedWorker
deriving DecidableEq, Repr

/-- The main loop's handling of one listed document (main.go lines
191-245), with an error-free store: skip if already processed; else, if
the title marks the document recalled, publish the recall notice — whose
failure is only logged (lines 207-210) — and mark processed regardless;
else dispatch a worker.  `noticeOk` is the outcome of the notice
publish. -/
def mainLoopHandleDoc (noticeOk : Bool) (s : StoreState) (d : Document) :
    StoreState × List OrchEvent :=
  if isDocumentProcessed none s d then (s, [])
  else if isRecalledDocument d then
    ((addProcessedDocument none none s (toProcessedRecord d)).1,
      [.publishedNotice noticeOk, .markedProcessed])
  else (s, [.dispatchedWorker])

/-- Download outcomes distinguished by `processDocument`. -/
inductive DownloadOutcome where
  | recalledError
  | invalidPdfError
  | otherError
  | downloaded
deriving DecidableEq, Repr

/-- The error-string check of main.go lines 279-280: a download error
mentions recall when it is the recalled error or the invalid-PDF error. -/
def errorIndicatesRecall : DownloadOutcome → Bool
  | .recalledError => true
  | .invalidPdfError => true
  | _ => false

/-- Model of `processDocument` (main.go lines 260-369) at the granularity of its
store writes, with an error-free store.  On a recall-indicating download
error: publish the notice, and only on notice success mark processed (a
failed notice returns early, lines 285-289).  On other download errors or
a failed image conversion: return without writing.  On success: post, and
only on post success mark processed.  A summarization failure is only
logged and does not branch. -/
def processDocument (dl : DownloadOutcome) (noticeOk convertOk postOk : Bool)
    (s : StoreState) (d : Document) : StoreState × List OrchEvent :=
  match dl with
  | .recalledError | .invalidPdfError =>
    if noticeOk then
      ((addProcessedDocument none none s (toProcessedRecord d)).1,
        [.publishedNotice true, .markedProcessed])
    else (s, [.publishedNotice false])
  | .otherError => (s, [])
  | .downloaded =>
    if !convertOk then (s, [])
    else if postOk then
      ((addProcessedDocument none none s (toProcessedRecord d)).1,
        [.markedProcessed])
    else (s, [])

/-- Claim C1 as stated: in the orchestrator's recall path, a document whose
title marks it as recalled is never marked processed when the notice
publish fails — the store is left unchanged so the document is retried
next cycle. -/
def claimC1 : Prop :=
  ∀ (s : StoreState) (d : Document),
    isRecalledDocument d = true →
    isDocumentProcessed none s d = false →
    (mainLoopHandleDoc false s d).1 = s

/-! ## Theorems: the claims settled against the embedding -/

/-- Claim C3: AddProcessedDocument is idempotent: calling it twice (with no
database faults) leaves the state of the first call unchanged and returns
success both times; moreover whenever the (title, url) key already exists
the call returns success and modifies nothing, whatever the insert oracle
would have answered. -/
theorem addProcessedDocument_idempotent (s : StoreState) (d : ProcessedDocument) :
    addProcessedDocument none none (addProcessedDocument none none s d).1 d
      = ((addProcessedDocument none none s d).1, Except.ok ()) ∧
    (addProcessedDocument none none s d).2 = Except.ok () ∧
    (∀ insertErr, existsTitleUrl s d.title d.url = true →
      addProcessedDocument none insertErr s d = (s, Except.ok ())) := by
  refine ⟨?_, ?_, ?_⟩
  · by_cases h : existsTitleUrl s d.title d.url
    · simp [addProcessedDocument, h]
    · have hmem : existsTitleUrl (s ++ [d]) d.title d.url = true := by
        simp [existsTitleUrl, List.any_append]
      simp [addProcessedDocument, h, hmem]
  · by_cases h : existsTitleUrl s d.title d.url <;>
      simp [addProcessedDocument, h]
  · intro insertErr h
    simp [addProcessedDocument, h]

/-- Witness for C3 at a concrete record and store. -/
theorem addProcessedDocument_idempotent_witness :
    addProcessedDocument none (some DbErr.queryFailed)
        [⟨str "Doc 1", str "u1", 5⟩] ⟨str "Doc 1", str "u1", 5⟩
      = ([⟨str "Doc 1", str "u1", 5⟩], Except.ok ()) :=
  (addProcessedDocument_idempotent [⟨str "Doc 1", str "u1", 5⟩]
      ⟨str "Doc 1", str "u1", 5⟩).2.2 (some DbErr.queryFailed) (by decide)

/-- Claim C5: the existence check fails open: for every erroring query (and every
store state and document) IsDocumentProcessed returns `false` rather than
propagating the error. -/
theorem isDocumentProcessed_fails_open (e : DbErr) (s : StoreState) (d : Document) :
    isDocumentProcessed (some e) s d = false := by
  rfl

/-- Claim C9: `isRecalledTitle` is a pure, case-insensitive predicate on the
title: it depends only on the lower-cased title; every title containing
"Recalled - Updated Document" in any letter case satisfies it; and
"Decision Document 23" does not. -/
theorem isRecalledTitle_spec :
    (∀ t₁ t₂ : Str, lowerStr t₁ = lowerStr t₂ →
        isRecalledTitle t₁ = isRecalledTitle t₂) ∧
    (∀ pre mid post : Str, lowerStr mid = str "recalled - updated document" →
        isRecalledTitle (pre ++ mid ++ post) = true) ∧
    isRecalledTitle (str "Decision Document 23") = false := by
  refine ⟨?_, ?_, by decide⟩
  · intro t₁ t₂ h
    simp only [isRecalledTitle, h]
  · intro pre mid post h
    have hmap : lowerStr (pre ++ mid ++ post)
        = lowerStr pre ++ lowerStr mid ++ lowerStr post := by
      simp [lowerStr]
    have hinf : (str "recalled -") <:+: lowerStr (pre ++ mid ++ post) := by
      rw [hmap, h]
      have h1 : (str "recalled -") <:+: (str "recalled - updated document") := by
        decide
      exact h1.trans (List.infix_append _ _ _)
    have hc : containsSub (lowerStr (pre ++ mid ++ post)) (str "recalled -") = true := by
      simpa [containsSub] using hinf
    simp only [isRecalledTitle, Bool.or_eq_true]
    exact Or.inr hc

/-- Witness for C9 at concrete titles. -/
theorem isRecalledTitle_spec_witness :
    isRecalledTitle (str "FIA RECALLED - Updated Document v2") = true :=
  isRecalledTitle_spec.2.1 (str "FIA ") (str "RECALLED - Updated Document")
    (str " v2") (by decide)

/-- Claim C10 counterexample: with `limit = 0` and a non-empty scrape the
function returns `ok []` — an empty list without an error — so the claim
as stated is false. -/
theorem fetchLatestDocuments_empty_ok_counterexample : ¬ claimC10 := by
  intro h
  exact h true [⟨str "Doc", str "u", 0⟩] 0 [] rfl rfl

theorem bubblePass_perm : ∀ (m : Nat) (l : List Document),
    (bubblePass m l).Perm l := by
  intro m
  induction m with
  | zero => intro l; exact List.Perm.refl l
  | succ m ih =>
    intro l
    match l with
    | [] => simp [bubblePass]
    | [a] => simp [bubblePass]
    | a :: b :: rest =>
      by_cases h : a.published < b.published
      · simp only [bubblePass, if_pos h]
        exact ((ih (a :: rest)).cons b).trans (List.Perm.swap a b rest)
      · simp only [bubblePass, if_neg h]
        exact (ih (b :: rest)).cons a

theorem bubblePass_filter : ∀ (m : Nat) (l : List Document) (k : Nat),
    (bubblePass m l).filter (fun d => d.published == k)
      = l.filter (fun d => d.published == k) := by
  intro m
  induction m with
  | zero => intro l k; rfl
  | succ m ih =>
    intro l k
    match l with
    | [] => rfl
    | [a] => rfl
    | a :: b :: rest =>
      by_cases h : a.published < b.published
      · simp only [bubblePass, if_pos h]
        by_cases ha : a.published = k
        · have hb : ¬ b.published = k := by omega
          simp [List.filter_cons, ha, hb, ih]
        · by_cases hb : b.published = k
          · simp [List.filter_cons, ha, hb, ih]
          · simp [List.filter_cons, ha, hb, ih]
      · simp only [bubblePass, if_neg h]
        simp only [List.filter_cons, ih]

theorem bubblePass_drop : ∀ (m : Nat) (l : List Document),
    (bubblePass m l).drop (m + 1) = l.drop (m + 1) := by
  intro m
  induction m with
  | zero => intro l; rfl
  | succ m ih =>
    intro l
    match l with
    | [] => rfl
    | [a] => simp [bubblePass]
    | a :: b :: rest =>
      by_cases h : a.published < b.published
      · simp only [bubblePass, if_pos h, List.drop_succ_cons]
        rw [ih]
        simp [List.drop_succ_cons]
      · simp only [bubblePass, if_neg h, List.drop_succ_cons]
        rw [ih]
        simp [List.drop_succ_cons]

theorem mem_take_succ (l : List Document) (m : Nat) (x : Document)
    (h : x ∈ l.take m) : x ∈ l.take (m + 1) := by
  rw [List.take_succ]
  exact List.mem_append_left _ h

theorem bubblePass_take_mem : ∀ (m : Nat) (l : List Document) (x : Document),
    x ∈ (bubblePass m l).take (m + 1) → x ∈ l.take (m + 1) := by
  intro m
  induction m with
  | zero => intro l x hx; exact hx
  | succ m ih =>
    intro l x hx
    match l with
    | [] => simp [bubblePass] at hx
    | [a] => simpa [bubblePass] using hx
    | a :: b :: rest =>
      by_cases h : a.published < b.published
      · simp only [bubblePass, if_pos h, List.take_succ_cons, List.mem_cons] at hx ⊢
        rcases hx with rfl | hx
        · exact Or.inr (Or.inl rfl)
        · have h2 := ih (a :: rest) x hx
          simp only [List.take_succ_cons, List.mem_cons] at h2
          rcases h2 with rfl | h3
          · exact Or.inl rfl
          · exact Or.inr (Or.inr h3)
      · simp only [bubblePass, if_neg h, List.take_succ_cons, List.mem_cons] at hx ⊢
        rcases hx with rfl | hx
        · exact Or.inl rfl
        · have h2 := ih (b :: rest) x hx
          simp only [List.take_succ_cons, List.mem_cons] at h2
          rcases h2 with rfl | h3
          · exact Or.inr (Or.inl rfl)
          · exact Or.inr (Or.inr h3)

theorem bubblePass_min : ∀ (m : Nat) (l : List Document) (y : Document),
    ((bubblePass m l).drop m).head? = some y →
    ∀ x ∈ l.take (m + 1), y.published ≤ x.published := by
  intro m
  induction m with
  | zero =>
    intro l y hy x hx
    cases l with
    | nil => simp [bubblePass] at hy
    | cons a t =>
      simp only [bubblePass, List.drop_zero, List.head?_cons, Option.some.injEq] at hy
      simp only [List.take_succ_cons, List.take_zero, List.mem_singleton] at hx
      subst hy; subst hx
      exact Nat.le_refl _
  | succ m ih =>
    intro l y hy x hx
    match l with
    | [] => simp [bubblePass] at hy
    | [a] => simp [bubblePass] at hy
    | a :: b :: rest =>
      by_cases h : a.published < b.published
      · simp only [bubblePass, if_pos h, List.drop_succ_cons] at hy
        have hmin := ih (a :: rest) y hy
        have hya : y.published ≤ a.published :=
          hmin a (by simp [List.take_succ_cons])
        simp only [List.take_succ_cons, List.mem_cons] at hx
        rcases hx with rfl | hx2
        · exact hya
        rcases hx2 with rfl | hx3
        · exact Nat.le_trans hya (Nat.le_of_lt h)
        · refine hmin x ?_
          simp only [List.take_succ_cons, List.mem_cons]
          exact Or.inr hx3
      · simp only [bubblePass, if_neg h, List.drop_succ_cons] at hy
        have hmin := ih (b :: rest) y hy
        have hyb : y.published ≤ b.published :=
          hmin b (by simp [List.take_succ_cons])
        simp only [List.take_succ_cons, List.mem_cons] at hx
        rcases hx with rfl | hx2
        · exact Nat.le_trans hyb (Nat.le_of_not_lt h)
        rcases hx2 with rfl | hx3
        · exact hyb
        · refine hmin x ?_
          simp only [List.take_succ_cons, List.mem_cons]
          exact Or.inr hx3

theorem bubbleOuter_sorted : ∀ (k : Nat) (l : List Document),
    SortedDesc (l.drop (k + 1)) →
    (∀ x ∈ l.take (k + 1), ∀ y ∈ l.drop (k + 1), y.published ≤ x.published) →
    SortedDesc (bubbleOuter k l) := by
  intro k
  induction k with
  | zero =>
    intro l hs hb
    cases l with
    | nil => simp [bubbleOuter]
    | cons a t =>
      show List.Pairwise _ (a :: t)
      refine List.Pairwise.cons ?_ ?_
      · intro y hy
        exact hb a (by simp) y (by simpa using hy)
      · simpa using hs
  | succ k ih =>
    intro l hs hb
    show SortedDesc (bubbleOuter k (bubblePass (k + 1) l))
    have hdrop2 : (bubblePass (k + 1) l).drop (k + 2) = l.drop (k + 2) :=
      bubblePass_drop (k + 1) l
    have htail : ∀ e tail, (bubblePass (k + 1) l).drop (k + 1) = e :: tail →
        tail = l.drop (k + 2) ∧ e ∈ l.take (k + 2) := by
      intro e tail hdp
      constructor
      · have h2 : (bubblePass (k + 1) l).drop (k + 2) = tail := by
          have h3 := List.drop_drop 1 (k + 1) (bubblePass (k + 1) l)
          rw [hdp] at h3
          simpa using h3.symm
        rw [← h2, hdrop2]
      · have hget : (bubblePass (k + 1) l)[k+1]? = some e := by
          rw [← List.head?_drop, hdp]; rfl
        have hmem : e ∈ (bubblePass (k + 1) l).take (k + 2) := by
          rw [List.take_succ, hget]
          exact List.mem_append_right _ (by simp)
        exact bubblePass_take_mem (k + 1) l e hmem
    apply ih
    · cases hdp : (bubblePass (k + 1) l).drop (k + 1) with
      | nil => simp
      | cons e tail =>
        obtain ⟨ht, he⟩ := htail e tail hdp
        refine List.Pairwise.cons ?_ ?_
        · intro y hy
          rw [ht] at hy
          exact hb e he y hy
        · rw [ht]; exact hs
    · intro x hx y hy
      cases hdp : (bubblePass (k + 1) l).drop (k + 1) with
      | nil => rw [hdp] at hy; cases hy
      | cons e tail =>
        obtain ⟨ht, _⟩ := htail e tail hdp
        rw [hdp] at hy
        have hxmem : x ∈ l.take (k + 2) :=
          bubblePass_take_mem (k + 1) l x (mem_take_succ _ (k + 1) x hx)
        rcases List.mem_cons.mp hy with rfl | hytail
        · have hhead : ((bubblePass (k + 1) l).drop (k + 1)).head? = some y := by
            rw [hdp]; rfl
          exact bubblePass_min (k + 1) l y hhead x hxmem
        · rw [ht] at hytail
          exact hb x hxmem y hytail

theorem bubbleOuter_perm : ∀ (k : Nat) (l : List Document),
    (bubbleOuter k l).Perm l := by
  intro k
  induction k with
  | zero => intro l; exact List.Perm.refl l
  | succ k ih =>
    intro l
    exact (ih (bubblePass (k + 1) l)).trans (bubblePass_perm (k + 1) l)

theorem bubbleOuter_filter : ∀ (k : Nat) (l : List Document) (key : Nat),
    (bubbleOuter k l).filter (fun d => d.published == key)
      = l.filter (fun d => d.published == key) := by
  intro k
  induction k with
  | zero => intro l key; rfl
  | succ k ih =>
    intro l key
    exact (ih (bubblePass (k + 1) l) key).trans (bubblePass_filter (k + 1) l key)

theorem sortDocumentsByDate_perm (l : List Document) :
    (sortDocumentsByDate l).Perm l :=
  bubbleOuter_perm (l.length - 1) l

theorem sortDocumentsByDate_sorted (l : List Document) :
    SortedDesc (sortDocumentsByDate l) := by
  apply bubbleOuter_sorted
  · rw [List.drop_eq_nil_of_le (by omega)]
    simp
  · intro x _ y hy
    rw [List.drop_eq_nil_of_le (by omega)] at hy
    cases hy

theorem sortDocumentsByDate_filter (l : List Document) (key : Nat) :
    (sortDocumentsByDate l).filter (fun d => d.published == key)
      = l.filter (fun d => d.published == key) :=
  bubbleOuter_filter (l.length - 1) l key

theorem filter_eq_of_stable (l out : List Document) (hperm : List.Perm l out)
    (hf : ∀ k ∈ l.map Document.published,
      out.filter (fun d => d.published == k)
        = l.filter (fun d => d.published == k)) :
    ∀ k, out.filter (fun d => d.published == k)
        = l.filter (fun d => d.published == k) := by
  intro k
  by_cases hk : k ∈ l.map Document.published
  · exact hf k hk
  · have h1 : l.filter (fun d => d.published == k) = [] := by
      rw [List.filter_eq_nil_iff]
      intro d hd hdk
      exact hk (List.mem_map.mpr ⟨d, hd, by simpa using hdk⟩)
    have h2 : out.filter (fun d => d.published == k) = [] := by
      rw [List.filter_eq_nil_iff]
      intro d hd hdk
      exact hk (List.mem_map.mpr ⟨d, hperm.mem_iff.mpr hd, by simpa using hdk⟩)
    rw [h1, h2]

theorem sorted_stable_unique : ∀ (l₁ l₂ : List Document),
    List.Perm l₁ l₂ → SortedDesc l₁ → SortedDesc l₂ →
    (∀ k, l₁.filter (fun d => d.published == k)
        = l₂.filter (fun d => d.published == k)) →
    l₁ = l₂ := by
  intro l₁
  induction l₁ with
  | nil =>
    intro l₂ hperm _ _ _
    exact hperm.nil_eq
  | cons a t ih =>
    intro l₂ hperm hs₁ hs₂ hf
    cases l₂ with
    | nil =>
      have := hperm.eq_nil
      simp at this
    | cons b t₂ =>
      have hab : a.published = b.published := by
        have ha2 : a ∈ b :: t₂ := hperm.mem_iff.mp (by simp)
        have hb1 : b ∈ a :: t := hperm.mem_iff.mpr (by simp)
        have h1 : a.published ≤ b.published := by
          rcases List.mem_cons.mp ha2 with heq | h
          · rw [heq]
          · exact (List.pairwise_cons.mp hs₂).1 a h
        have h2 : b.published ≤ a.published := by
          rcases List.mem_cons.mp hb1 with heq | h
          · rw [heq]
          · exact (List.pairwise_cons.mp hs₁).1 b h
        omega
      have hfa := hf a.published
      rw [List.filter_cons, List.filter_cons] at hfa
      simp only [beq_self_eq_true, if_true, hab.symm, beq_iff_eq] at hfa
      injection hfa with hhead htails
      subst hhead
      have hperm2 : List.Perm t t₂ := hperm.cons_inv
      have hs₁2 := (List.pairwise_cons.mp hs₁).2
      have hs₂2 := (List.pairwise_cons.mp hs₂).2
      have hf2 : ∀ k, t.filter (fun d => d.published == k)
          = t₂.filter (fun d => d.published == k) := by
        intro k
        have hk := hf k
        rw [List.filter_cons, List.filter_cons] at hk
        by_cases hak : a.published = k
        · rw [if_pos (by simpa using hak), if_pos (by simpa using hak)] at hk
          injection hk
        · rw [if_neg (by simpa using hak), if_neg (by simpa using hak)] at hk
          exact hk
      rw [ih t₂ hperm2 hs₁2 hs₂2 hf2]

theorem sortDocumentsByDate_stable (l : List Document) :
    IsStableDescSortOf l (sortDocumentsByDate l) :=
  ⟨(sortDocumentsByDate_perm l).symm, sortDocumentsByDate_sorted l,
    fun k _ => sortDocumentsByDate_filter l k⟩

/-- Claim C8: the list built by the fetch path equals the first `limit` elements
of the (unique) stable descending sort of the scraped documents — the
bubble sort implementation refines any reference stable descending sort by
timestamp — and never has more than `limit` elements. -/
theorem listRecent_refines_stable_sort (scraped : List Document) (limit : Nat)
    (out : List Document) (h : IsStableDescSortOf scraped out) :
    listRecent scraped limit = out.take limit ∧
    (listRecent scraped limit).length ≤ limit := by
  have hstable := sortDocumentsByDate_stable scraped
  have heq : sortDocumentsByDate scraped = out := by
    apply sorted_stable_unique
    · exact hstable.1.symm.trans h.1
    · exact hstable.2.1
    · exact h.2.1
    · intro k
      rw [filter_eq_of_stable scraped _ hstable.1 hstable.2.2 k,
        ← filter_eq_of_stable scraped _ h.1 h.2.2 k]
  have hmain : listRecent scraped limit = out.take limit := by
    show (if (sortDocumentsByDate scraped).length > limit
        then (sortDocumentsByDate scraped).take limit
        else sortDocumentsByDate scraped) = out.take limit
    rw [heq]
    by_cases hl : out.length > limit
    · rw [if_pos hl]
    · rw [if_neg hl, List.take_of_length_le (by omega)]
  refine ⟨hmain, ?_⟩
  rw [hmain]
  exact List.length_take_le limit out

/-- Witness for C8 at a concrete scrape with a duplicate timestamp. -/
theorem listRecent_refines_stable_sort_witness :
    listRecent
        [⟨str "A", str "u1", 5⟩, ⟨str "B", str "u2", 9⟩, ⟨str "C", str "u3", 5⟩] 2
      = ([⟨str "B", str "u2", 9⟩, ⟨str "A", str "u1", 5⟩,
          ⟨str "C", str "u3", 5⟩] : List Document).take 2 :=
  (listRecent_refines_stable_sort
    [⟨str "A", str "u1", 5⟩, ⟨str "B", str "u2", 9⟩, ⟨str "C", str "u3", 5⟩] 2
    [⟨str "B", str "u2", 9⟩, ⟨str "A", str "u1", 5⟩, ⟨str "C", str "u3", 5⟩]
    (by refine ⟨?_, ?_, ?_⟩ <;> decide)).1

/-- Claim C10 amended: with a positive limit, every non-error return of
FetchLatestDocuments is a non-empty list (zero scraped documents always
produce an error instead), and FetchLatestDocument (which uses limit 1)
reads `docs[0]` of a list whose head exists. -/
theorem fetchLatestDocuments_nonempty (visitOk : Bool)
    (scraped docs : List Document) (limit : Nat)
    (hlim : 1 ≤ limit)
    (h : fetchLatestDocuments visitOk scraped limit = .ok docs) :
    docs ≠ [] := by
  unfold fetchLatestDocuments at h
  split at h
  · exact absurd h (by simp)
  · split at h
    · exact absurd h (by simp)
    · rename_i hv hn
      injection h with h
      subst h
      have hlen : (sortDocumentsByDate scraped).length = scraped.length :=
        (sortDocumentsByDate_perm scraped).length_eq
      intro hnil
      have := congrArg List.length hnil
      revert this
      show ¬ (listRecent scraped limit).length = 0
      show ¬ (if (sortDocumentsByDate scraped).length > limit
          then (sortDocumentsByDate scraped).take limit
          else sortDocumentsByDate scraped).length = 0
      by_cases hgt : (sortDocumentsByDate scraped).length > limit
      · rw [if_pos hgt]
        simp only [List.length_take]
        omega
      · rw [if_neg hgt]
        omega

/-- Witness for C10 amended at a concrete scrape. -/
theorem fetchLatestDocuments_nonempty_witness :
    ([⟨str "Doc", str "u", 3⟩] : List Document) ≠ [] :=
  fetchLatestDocuments_nonempty true [⟨str "Doc", str "u", 3⟩]
    [⟨str "Doc", str "u", 3⟩] 1 (by decide) rfl

/-- Claim C2 counterexample: a 520-character title forces a post of 575
characters (the header and suffix alone exceed the limit), and a 600
character space-free summary is cut mid-word at the byte budget, so both
parts of the claim fail on the code. -/
theorem formatPostText_counterexample :
    ¬ claimC2 ∧ ¬ TruncClaimHolds (List.replicate 600 'b') 446 := by
  constructor
  · intro h
    have h1 := (h none (List.replicate 520 'a') [] [] []).1
    exact absurd h1 (by decide)
  · intro h
    rcases h with h | ⟨hlim, _⟩ | ⟨w, hw, hsp⟩
    · have hne : truncateText (List.replicate 600 'b') 446
          ≠ List.replicate 600 'b' := by decide
      exact hne h
    · exact absurd hlim (by decide)
    · have ht : (truncateText (List.replicate 600 'b') 446).length = 446 := by
        decide
      have hwlen : w.length = 443 := by
        have hl := congrArg List.length hw
        rw [ht, List.length_append] at hl
        have he : ellipsisStr.length = 3 := by decide
        omega
      have hb : ((List.replicate 600 'b').drop w.length).head? = some 'b' := by
        rw [hwlen]
        decide
      rw [hb] at hsp
      exact absurd hsp (by decide)

/-- Model of `lastIndexSpace` returns an in-range index pointing at a space. -/
theorem lastIndexSpace_spec : ∀ (s : Str) (i : Nat),
    lastIndexSpace s = some i → i < s.length ∧ (s.drop i).head? = some ' ' := by
  intro s
  induction s with
  | nil => intro i h; simp [lastIndexSpace] at h
  | cons c rest ih =>
    intro i h
    simp only [lastIndexSpace] at h
    cases hr : lastIndexSpace rest with
    | some j =>
      rw [hr] at h
      injection h with h
      subst h
      obtain ⟨hj, hsp⟩ := ih j hr
      refine ⟨by simpa using Nat.succ_lt_succ hj, ?_⟩
      simpa [List.drop_succ_cons] using hsp
    | none =>
      rw [hr] at h
      by_cases hc : c = ' '
      · rw [if_pos hc] at h
        injection h with h
        subst h
        exact ⟨by simp, by simp [hc]⟩
      · rw [if_neg hc] at h
        cases h

/-- The head of a positive-length take is the head of the list. -/
theorem head?_take (l : Str) (m : Nat) (hm : 0 < m) :
    (l.take m).head? = l.head? := by
  cases l with
  | nil => simp
  | cons a t =>
    cases m with
    | zero => omega
    | succ m => simp [List.take_succ_cons]

/-- Length bound for `truncateText`: the result never exceeds
`max limit 0` characters. -/
theorem truncateText_length_le (text : Str) (limit : Int) :
    ((truncateText text limit).length : Int) ≤ max limit 0 := by
  by_cases h1 : (text.length : Int) ≤ limit
  · rw [truncateText, if_pos h1]
    exact le_trans h1 (le_max_left _ _)
  · rw [truncateText, if_neg h1]
    simp only
    by_cases h2 : limit - (ellipsisStr.length : Int) ≤ 0
    · rw [if_pos h2]
      simp
    · rw [if_neg h2]
      have he : (ellipsisStr.length : Int) = 3 := by decide
      have hpos : 0 < limit - 3 := by omega
      have htn : ((limit - (ellipsisStr.length : Int)).toNat : Int)
          = limit - 3 := by
        rw [he]
        exact Int.toNat_of_nonneg (by omega)
      cases h3 : lastIndexSpace (text.take (limit - (ellipsisStr.length : Int)).toNat) with
      | none =>
        simp only [List.length_append, List.length_take]
        have he2 : ellipsisStr.length = 3 := by decide
        rw [he2]
        have : (text.take (limit - (ellipsisStr.length : Int)).toNat).length
            ≤ (limit - (ellipsisStr.length : Int)).toNat := List.length_take_le _ _
        simp only [List.length_take] at this ⊢
        push_cast
        omega
      | some i =>
        obtain ⟨hi, _⟩ := lastIndexSpace_spec _ _ h3
        simp only [List.length_take, lt_inf_iff] at hi
        simp only [List.length_append, List.length_take]
        have he2 : ellipsisStr.length = 3 := by decide
        rw [he2]
        push_cast
        omega

theorem truncateText_cases (text : Str) (limit : Int) :
    TruncAmended text limit := by
  by_cases h1 : (text.length : Int) ≤ limit
  · exact Or.inl ⟨h1, by rw [truncateText, if_pos h1]⟩
  · by_cases h2 : limit - (ellipsisStr.length : Int) ≤ 0
    · refine Or.inr (Or.inl ⟨h2, by omega, ?_⟩)
      rw [truncateText, if_neg h1]
      simp only
      rw [if_pos h2]
    · cases h3 : lastIndexSpace (text.take (limit - (ellipsisStr.length : Int)).toNat) with
      | none =>
        refine Or.inr (Or.inr (Or.inr ⟨h3, ?_⟩))
        rw [truncateText, if_neg h1]
        simp only
        rw [if_neg h2, h3]
      | some i =>
        refine Or.inr (Or.inr (Or.inl ⟨text.take i, ?_, ?_⟩))
        · rw [truncateText, if_neg h1]
          simp only
          rw [if_neg h2, h3]
        · obtain ⟨hi, hsp⟩ := lastIndexSpace_spec _ _ h3
          simp only [List.length_take, lt_inf_iff] at hi
          have hlen : (text.take i).length = i := by
            simp only [List.length_take]
            omega
          rw [hlen]
          rw [List.drop_take] at hsp
          rw [← head?_take (text.drop i)
            ((limit - (ellipsisStr.length : Int)).toNat - i) (by omega)]
          exact hsp

/-- Claim C2 amended: whenever the header plus suffix fits in the platform
limit, the post text fits in the 500-character limit; and the summary
portion follows the precise truncation behaviour: it fits, or is emptied
when the budget net of the ellipsis is non-positive, or ends at a word
boundary followed by the ellipsis, or — when the truncated window contains
no space at all — is cut exactly at the byte budget (possibly mid-word)
followed by the ellipsis. -/
theorem formatPostText_amended (shortenResult : Option Str)
    (title timeStr documentURL aiSummary : Str)
    (hfit : (baseTextOf shortenResult title timeStr documentURL).length
      + suffixStr.length ≤ maxCharacterLimit) :
    (formatPostText shortenResult title timeStr documentURL aiSummary).length
        ≤ maxCharacterLimit ∧
    TruncAmended aiSummary
      ((maxCharacterLimit : Int)
        - ((baseTextOf shortenResult title timeStr documentURL).length : Int)
        - (suffixStr.length : Int)) := by
  refine ⟨?_, truncateText_cases _ _⟩
  have htr := truncateText_length_le aiSummary
    ((maxCharacterLimit : Int)
      - ((baseTextOf shortenResult title timeStr documentURL).length : Int)
      - (suffixStr.length : Int))
  show (baseTextOf shortenResult title timeStr documentURL
      ++ truncateText aiSummary _ ++ suffixStr).length ≤ maxCharacterLimit
  simp only [List.length_append]
  rcases le_total ((maxCharacterLimit : Int)
      - ((baseTextOf shortenResult title timeStr documentURL).length : Int)
      - (suffixStr.length : Int)) 0 with hB | hB
  · rw [max_eq_right hB] at htr
    omega
  · rw [max_eq_left hB] at htr
    omega

/-- Witness for C2 amended at concrete inputs. -/
theorem formatPostText_amended_witness :
    (formatPostText none (str "Decision 1") (str "01-01-2025 10:00 UTC") []
        (str "Steward decision summary")).length ≤ maxCharacterLimit ∧
    TruncAmended (str "Steward decision summary")
      ((maxCharacterLimit : Int)
        - ((baseTextOf none (str "Decision 1")
            (str "01-01-2025 10:00 UTC") []).length : Int)
        - (suffixStr.length : Int)) :=
  formatPostText_amended none (str "Decision 1") (str "01-01-2025 10:00 UTC")
    [] (str "Steward decision summary") (by decide)

/-- Claim C4 counterexample: with two images and an all-success API, the trace
is exactly item-create, item-create, carousel-create, publish — no status
poll ever happens, so the claim as stated is false. -/
theorem postCarousel_no_poll_counterexample : ¬ claimC4 := by
  intro h
  have h2 := h (fun u => .ok u) (fun _ => .ok (str "c")) (fun _ => .ok ())
    [str "a", str "b"] (by decide) (by decide)
    [ApiEvent.createItem (str "a"), ApiEvent.createItem (str "b")]
    [str "a", str "b"]
    [ApiEvent.publishCar (str "c")]
    rfl (str "a") (by decide)
  exact absurd h2 (by decide)

theorem postCarouselLoop_no_checkStatus (itemRes : Str → Except ApiErr Str) :
    ∀ (urls : List Str) (id : Str),
    ApiEvent.checkStatus id ∉ (postCarouselLoop itemRes urls).2 := by
  intro urls
  induction urls with
  | nil => intro id h; cases h
  | cons u rest ih =>
    intro id h
    simp only [postCarouselLoop] at h
    cases hr : itemRes u with
    | error e => rw [hr] at h; simp at h
    | ok i =>
      rw [hr] at h
      cases hl : postCarouselLoop itemRes rest with
      | mk r tr =>
        rw [hl] at h
        cases r with
        | error e =>
          simp only [List.mem_cons] at h
          rcases h with h | h
          · cases h
          · exact ih id (by rw [hl]; exact h)
        | ok ids =>
          simp only [List.mem_cons] at h
          rcases h with h | h
          · cases h
          · exact ih id (by rw [hl]; exact h)

theorem postCarouselLoop_ok_trace (itemRes : Str → Except ApiErr Str) :
    ∀ (urls : List Str) (ids : List Str) (tr : List ApiEvent),
    postCarouselLoop itemRes urls = (.ok ids, tr) →
    tr = urls.map ApiEvent.createItem := by
  intro urls
  induction urls with
  | nil =>
    intro ids tr h
    simp only [postCarouselLoop, Prod.mk.injEq] at h
    rw [← h.2]
    rfl
  | cons u rest ih =>
    intro ids tr h
    simp only [postCarouselLoop] at h
    cases hr : itemRes u with
    | error e => rw [hr] at h; simp at h
    | ok i =>
      rw [hr] at h
      cases hl : postCarouselLoop itemRes rest with
      | mk r tr2 =>
        rw [hl] at h
        cases r with
        | error e => simp at h
        | ok ids2 =>
          simp only [Prod.mk.injEq] at h
          rw [← h.2, List.map_cons, ih ids2 tr2 (by rw [hl])]

/-- Claim C4 amended: the carousel flow performs no status polling at all — no
trace of `postCarousel` ever contains a `checkStatus` event — and on a
fully successful run the trace is exactly one item-container creation per
image followed by the carousel creation and the publish call, separated
only by fixed sleeps. -/
theorem postCarousel_trace_spec (itemRes : Str → Except ApiErr Str)
    (caroRes : List Str → Except ApiErr Str)
    (pubRes : Str → Except ApiErr Unit) (imageURLs : List Str) :
    (∀ id, ApiEvent.checkStatus id ∉
      (postCarousel itemRes caroRes pubRes imageURLs).2) ∧
    ((postCarousel itemRes caroRes pubRes imageURLs).1 = .ok () →
      ∃ ids caroId,
        (postCarousel itemRes caroRes pubRes imageURLs).2
          = imageURLs.map ApiEvent.createItem
            ++ [ApiEvent.createCarousel ids, ApiEvent.publishCar caroId]) := by
  constructor
  · intro id
    have htr := postCarouselLoop_no_checkStatus itemRes imageURLs id
    rcases hl : postCarouselLoop itemRes imageURLs with ⟨r, tr⟩
    rw [hl] at htr
    cases r with
    | error e =>
      simp only [postCarousel, hl]
      exact htr
    | ok ids =>
      cases hc : caroRes ids with
      | error e =>
        simp only [postCarousel, hl, hc]
        simp [htr]
      | ok caroId =>
        cases hp : pubRes caroId with
        | error e =>
          simp only [postCarousel, hl, hc, hp]
          simp [htr]
        | ok u =>
          simp only [postCarousel, hl, hc, hp]
          simp [htr]
  · intro hok
    rcases hl : postCarouselLoop itemRes imageURLs with ⟨r, tr⟩
    simp only [postCarousel, hl] at hok ⊢
    cases r with
    | error e => simp at hok
    | ok ids =>
      dsimp only at hok ⊢
      have htr : tr = imageURLs.map ApiEvent.createItem :=
        postCarouselLoop_ok_trace itemRes imageURLs ids tr hl
      cases hc : caroRes ids with
      | error e =>
        simp only [hc] at hok
        exact absurd hok (by simp)
      | ok caroId =>
        simp only [hc] at hok ⊢
        cases hp : pubRes caroId with
        | error e =>
          simp only [hp] at hok
          exact absurd hok (by simp)
        | ok u =>
          simp only [hp]
          exact ⟨ids, caroId, by rw [htr]⟩

/-- Witness for C4 amended on a successful two-image run. -/
theorem postCarousel_trace_spec_witness :
    ∃ ids caroId,
      (postCarousel (fun u => .ok u) (fun _ => .ok (str "c"))
        (fun _ => .ok ()) [str "a", str "b"]).2
        = ([str "a", str "b"]).map ApiEvent.createItem
          ++ [ApiEvent.createCarousel ids, ApiEvent.publishCar caroId] :=
  (postCarousel_trace_spec (fun u => .ok u) (fun _ => .ok (str "c"))
    (fun _ => .ok ()) [str "a", str "b"]).2 rfl

/-- Claim C6: whenever the downloaded body does not start with the PDF magic
bytes or is smaller than 1000 bytes, DownloadDocument returns the
invalid-artifact error and the partially written file has been removed
(no content remains on disk; the trace records the write then the
removal). -/
theorem downloadDocument_invalid_removed (d : Document) (r : HttpResponse)
    (dir : Str) (hnr : isRecalledDocument d = false) (hst : r.status = 200)
    (hbad : r.body.take 5 ≠ pdfSignature ∨ r.body.length < 1000) :
    (downloadDocument d (.ok r) dir).1 = .error .invalidPdf ∧
    (downloadDocument d (.ok r) dir).2.1 = none ∧
    (downloadDocument d (.ok r) dir).2.2
      = [Effect.httpRequest, Effect.fileWrite, Effect.fileRemove] := by
  have hv : verifyPDF r.body = false := by
    rcases hbad with hsig | hsize
    · simp [verifyPDF, hsig]
    · simp [verifyPDF, hsize]
  simp [downloadDocument, hnr, hst, hv]

/-- Witness for C6 at a concrete small non-PDF body. -/
theorem downloadDocument_invalid_removed_witness :
    (downloadDocument ⟨str "Decision 7", str "u", 0⟩
        (.ok ⟨200, str "<html>err</html>"⟩) (str "temp")).1
      = .error .invalidPdf ∧
    (downloadDocument ⟨str "Decision 7", str "u", 0⟩
        (.ok ⟨200, str "<html>err</html>"⟩) (str "temp")).2.1 = none ∧
    (downloadDocument ⟨str "Decision 7", str "u", 0⟩
        (.ok ⟨200, str "<html>err</html>"⟩) (str "temp")).2.2
      = [Effect.httpRequest, Effect.fileWrite, Effect.fileRemove] :=
  downloadDocument_invalid_removed ⟨str "Decision 7", str "u", 0⟩
    ⟨200, str "<html>err</html>"⟩ (str "temp") (by decide) rfl
    (Or.inl (by decide))

/-- Claim C7: for every document whose title satisfies the recalled predicate,
DownloadDocument fails fast with the recalled error, leaves no file, and
performs no effect at all — in particular no HTTP request and no file
write. -/
theorem downloadDocument_recalled_fail_fast (d : Document)
    (resp : Except Unit HttpResponse) (dir : Str)
    (hr : isRecalledDocument d = true) :
    (downloadDocument d resp dir).1 = .error .recalled ∧
    (downloadDocument d resp dir).2.1 = none ∧
    (downloadDocument d resp dir).2.2 = [] := by
  simp [downloadDocument, hr]

/-- Witness for C7 at a concrete recalled title. -/
theorem downloadDocument_recalled_fail_fast_witness :
    (downloadDocument ⟨str "Recalled - Doc 44", str "u", 0⟩
        (.ok ⟨200, str "%PDF-"⟩) (str "temp")).1 = .error .recalled ∧
    (downloadDocument ⟨str "Recalled - Doc 44", str "u", 0⟩
        (.ok ⟨200, str "%PDF-"⟩) (str "temp")).2.1 = none ∧
    (downloadDocument ⟨str "Recalled - Doc 44", str "u", 0⟩
        (.ok ⟨200, str "%PDF-"⟩) (str "temp")).2.2 = [] :=
  downloadDocument_recalled_fail_fast ⟨str "Recalled - Doc 44", str "u", 0⟩
    (.ok ⟨200, str "%PDF-"⟩) (str "temp") (by decide)

/-- Claim C1 counterexample: in the main loop's title-check recall path the
notice-publish error is only logged and the document is marked processed
anyway; with an empty store and a failed notice publish the processed
record is still written. -/
theorem mainLoopRecall_marks_on_failure_counterexample : ¬ claimC1 := by
  intro h
  have h2 := h [] ⟨str "Recalled - Doc 9", str "u", 0⟩ (by decide) rfl
  have h3 : (mainLoopHandleDoc false [] ⟨str "Recalled - Doc 9", str "u", 0⟩).1
      = [toProcessedRecord ⟨str "Recalled - Doc 9", str "u", 0⟩] := by decide
  rw [h3] at h2
  exact absurd h2 (by decide)

/-- Claim C1 amended: in the main loop's title-check recall path the document is
marked processed whether or not the notice publish succeeds (its failure
is only logged); only in processDocument's download-detected recall path
does a failed notice publish leave the store unchanged, so only there is
the document retried next cycle. -/
theorem recallPaths_marking (s : StoreState) (d : Document) :
    (∀ noticeOk : Bool, isDocumentProcessed none s d = false →
      isRecalledDocument d = true →
      (mainLoopHandleDoc noticeOk s d).1
        = (addProcessedDocument none none s (toProcessedRecord d)).1 ∧
      OrchEvent.markedProcessed ∈ (mainLoopHandleDoc noticeOk s d).2) ∧
    (∀ dl convertOk postOk, errorIndicatesRecall dl = true →
      processDocument dl false convertOk postOk s d
        = (s, [OrchEvent.publishedNotice false])) := by
  constructor
  · intro noticeOk hproc hrec
    rw [mainLoopHandleDoc, if_neg (by simp [hproc]), if_pos hrec]
    exact ⟨rfl, by simp⟩
  · intro dl convertOk postOk hdl
    cases dl with
    | recalledError => rfl
    | invalidPdfError => rfl
    | otherError => simp [errorIndicatesRecall] at hdl
    | downloaded => simp [errorIndicatesRecall] at hdl

/-- Witness for C1 amended at a concrete recalled document and store. -/
theorem recallPaths_marking_witness :
    ((mainLoopHandleDoc false [] ⟨str "Recalled - Doc 9", str "u", 2⟩).1
      = (addProcessedDocument none none []
          (toProcessedRecord ⟨str "Recalled - Doc 9", str "u", 2⟩)).1 ∧
     OrchEvent.markedProcessed
       ∈ (mainLoopHandleDoc false [] ⟨str "Recalled - Doc 9", str "u", 2⟩).2) ∧
    processDocument DownloadOutcome.recalledError false true true []
        ⟨str "Recalled - Doc 9", str "u", 2⟩
      = ([], [OrchEvent.publishedNotice false]) :=
  ⟨(recallPaths_marking [] ⟨str "Recalled - Doc 9", str "u", 2⟩).1 false rfl
      (by decide),
   (recallPaths_marking [] ⟨str "Recalled - Doc 9", str "u", 2⟩).2
      DownloadOutcome.recalledError true true rfl⟩

end F1Bot
